import Mathlib

/-!
Verification of the article-extraction chatbot (`app1.py` / `pdf_bot_new.py`).

The repository extracts numbered constitutional articles from a PDF by
scanning per-page text with regular expressions (`load_articles`) and answers
lookup queries (`get_answer`).  Below is a shallow embedding of that code:
strings are `List Char`, the Python `dict` is an insertion-ordered association
list, and every regular expression of the source is unfolded into an explicit
deterministic parser that mirrors the backtracking behaviour of Python's `re`
on these particular patterns.  Only the ASCII fragment of Python's character
classes (`\s`, `\d`, `[A-Za-z]`, `str.lower`, `str.strip`) is modelled; all
inputs relevant to the claims are ASCII.
-/

/-! ## Character classes (ASCII fragment of Python's semantics) -/

abbrev Str := List Char

/-- ASCII decimal digit, Python `\d` (ASCII fragment). -/
def isDigitC (c : Char) : Bool := decide (48 ≤ c.toNat ∧ c.toNat ≤ 57)

/-- ASCII uppercase letter, Python `[A-Z]`. -/
def isUpperC (c : Char) : Bool := decide (65 ≤ c.toNat ∧ c.toNat ≤ 90)

/-- ASCII lowercase letter, Python `[a-z]`. -/
def isLowerC (c : Char) : Bool := decide (97 ≤ c.toNat ∧ c.toNat ≤ 122)

/-- ASCII letter, Python `[A-Za-z]`. -/
def isAlphaC (c : Char) : Bool := isUpperC c || isLowerC c

/-- ASCII whitespace, Python `\s` / `str.strip` (ASCII fragment):
space, tab, newline, carriage return, vertical tab, form feed. -/
def isWsC (c : Char) : Bool :=
  decide (c.toNat = 32 ∨ c.toNat = 9 ∨ c.toNat = 10 ∨ c.toNat = 13 ∨
          c.toNat = 11 ∨ c.toNat = 12)

/-- Python `str.lower` on one character (ASCII fragment). -/
def lowerC (c : Char) : Char :=
  if isUpperC c then Char.ofNat (c.toNat + 32) else c

/-- Python `str.upper` on one character (ASCII fragment). -/
def upperC (c : Char) : Char :=
  if isLowerC c then Char.ofNat (c.toNat - 32) else c

/-! ## Generic string helpers -/

/-- Boolean list-prefix test (used for regex literal alternatives). -/
def isPre : Str → Str → Bool
  | [], _ => true
  | _ :: _, [] => false
  | p :: ps, c :: cs => p = c && isPre ps cs

/-- Python substring containment `needle in hay`. -/
def containsSub (hay needle : Str) : Bool :=
  match hay with
  | [] => isPre needle []
  | _ :: t => isPre needle hay || containsSub t needle

/-- Python `str.strip()` (ASCII fragment): drop leading and trailing
whitespace. -/
def pstrip (l : Str) : Str :=
  ((l.dropWhile isWsC).reverse.dropWhile isWsC).reverse

/-- Python `text.split('\n')`. -/
def splitLines (l : Str) : List Str :=
  l.foldr
    (fun c acc =>
      if c = '\n' then [] :: acc
      else
        match acc with
        | [] => [[c]]
        | a :: rest => (c :: a) :: rest)
    [[]]

/-- Python `"\n".join(list)`. -/
def joinNL : List Str → Str
  | [] => []
  | [x] => x
  | x :: y :: xs => x ++ '\n' :: joinNL (y :: xs)

/-! ## The article store (Python `dict`, insertion ordered) -/

abbrev Store := List (Str × Str)

/-- Python `d[k]` / `k in d` combined: first (unique) binding of `k`. -/
def lookupA : Store → Str → Option Str
  | [], _ => none
  | (k, v) :: rest, key => if k = key then some v else lookupA rest key

/-- Python `d[k] = v`: replace in place if the key exists, else append. -/
def insertA : Store → Str → Str → Store
  | [], k, v => [(k, v)]
  | (k0, v0) :: rest, k, v =>
    if k0 = k then (k0, v) :: rest else (k0, v0) :: insertA rest k v

/-! ## The extractor's regular expressions, unfolded

`load_articles` uses four patterns (identical in both source files):

* `art_pattern    = ^(\d+\[)?(\d+[A-Z]?)\.\s+(.*)`
* `footnote_regex = ^\d+\.\s+(Subs\.|Ins\.|Omitted|Rep\.|Added|Substituted|Inserted)`
* `structure_pattern = ^(\d+\[)?(PART\s+[IVXLC]+|CHAPTER\s+[IVXLC]+)`
* continuation filters `^\d+$` and `^\d+\s+\d+$`

On these patterns Python's backtracking search is deterministic except for the
optional group `(\d+\[)?`, whose greedy first-try/fall-back order is made
explicit below. -/

/-- Parser for `(\d+[A-Z]?)\.\s+(.*)` anchored at the start: returns the
captured article number and the trailing content (group 3). -/
def artNumFrom (l : Str) : Option (Str × Str) :=
  if l.takeWhile isDigitC = [] then none
  else
    match l.dropWhile isDigitC with
    | [] => none
    | c :: rest =>
      if c = '.' then
        if rest.takeWhile isWsC = [] then none
        else some (l.takeWhile isDigitC, rest.dropWhile isWsC)
      else if isUpperC c then
        match rest with
        | [] => none
        | c2 :: r2 =>
          if c2 = '.' then
            if r2.takeWhile isWsC = [] then none
            else some (l.takeWhile isDigitC ++ [c], r2.dropWhile isWsC)
          else none
      else none

/-- The `(\d+\[`-prefixed branch of `art_pattern` (tried first: the optional
group is greedy). -/
def artPre (l : Str) : Option (Str × Str) :=
  if l.takeWhile isDigitC = [] then none
  else
    match l.dropWhile isDigitC with
    | c :: r2 => if c = '[' then artNumFrom r2 else none
    | [] => none

/-- `art_pattern.match(line)`: group 2 (article number) and group 3
(content). -/
def artMatch (l : Str) : Option (Str × Str) :=
  match artPre l with
  | some res => some res
  | none => artNumFrom l

/-- The seven footnote keyword stems of `footnote_keywords`. -/
def fnKeywords : List Str :=
  ["Subs.", "Ins.", "Omitted", "Rep.", "Added", "Substituted", "Inserted"].map
    String.toList

/-- `footnote_regex.match(line)`: a bare number, a period, whitespace, then
one of the keyword stems. -/
def footnoteMatch (l : Str) : Bool :=
  decide (l.takeWhile isDigitC ≠ []) &&
    match l.dropWhile isDigitC with
    | c :: r2 =>
      c = '.' && decide (r2.takeWhile isWsC ≠ []) &&
        fnKeywords.any (fun kw => isPre kw (r2.dropWhile isWsC))
    | [] => false

/-- Roman-numeral letter class `[IVXLC]`. -/
def isRomanC (c : Char) : Bool :=
  c = 'I' || c = 'V' || c = 'X' || c = 'L' || c = 'C'

/-- `\s+[IVXLC]+` anchored at the start. -/
def structTail (l : Str) : Bool :=
  decide (l.takeWhile isWsC ≠ []) &&
    match l.dropWhile isWsC with
    | c :: _ => isRomanC c
    | [] => false

/-- `PART\s+[IVXLC]+|CHAPTER\s+[IVXLC]+` anchored at the start. -/
def structCore (l : Str) : Bool :=
  (isPre "PART".toList l && structTail (l.drop 4)) ||
  (isPre "CHAPTER".toList l && structTail (l.drop 7))

/-- `structure_pattern.match(line)`, with the greedy optional `(\d+\[)?`
prefix. -/
def structureMatch (l : Str) : Bool :=
  (decide (l.takeWhile isDigitC ≠ []) &&
    match l.dropWhile isDigitC with
    | c :: r2 => c = '[' && structCore r2
    | [] => false) ||
  structCore l

/-- `re.match(r'^\d+$', line)`: page-number line. -/
def isAllDigits (l : Str) : Bool :=
  decide (l ≠ []) && l.all isDigitC

/-- `re.match(r'^\d+\s+\d+$', line)`: two digit groups, a page artifact. -/
def pageArtifact (l : Str) : Bool :=
  decide (l.takeWhile isDigitC ≠ []) &&
    decide ((l.dropWhile isDigitC).takeWhile isWsC ≠ []) &&
    decide ((l.dropWhile isDigitC).dropWhile isWsC ≠ []) &&
    ((l.dropWhile isDigitC).dropWhile isWsC).all isDigitC

/-! ## The extractor (`load_articles`) -/

/-- The mutable state of `load_articles`' scanning loop:
the store built so far, the `seen_articles` set, `current_art_num`, and
`current_art_text`. -/
structure ExtState where
  articles : Store
  seen : List Str
  cur : Option Str
  acc : List Str
  deriving Repr, DecidableEq

/-- Initial scanning state. -/
def initState : ExtState := ⟨[], [], none, []⟩

/-- `"\n".join(current_art_text).strip()`: the stored body of a finalized
article. -/
def finalize (acc : List Str) : Str := pstrip (joinNL acc)

/-- The body of `load_articles`' inner `for line in lines` loop, after the
initial `line = line.strip()`. -/
def classifyLine (st : ExtState) (line : Str) : ExtState :=
  if line = [] then st
  else if structureMatch line then
    match st.cur with
    | some n => ⟨insertA st.articles n (finalize st.acc), st.seen, none, []⟩
    | none => st
  else
    match artMatch line with
    | some (num, content) =>
      if footnoteMatch line then st
      else if containsSub content "Amendment) Act".toList ||
              containsSub content "w.e.f.".toList then st
      else if !content.any isAlphaC then st
      else if st.seen.contains num then st
      else
        let arts :=
          match st.cur with
          | some n => insertA st.articles n (finalize st.acc)
          | none => st.articles
        ⟨arts, num :: st.seen, some num, [content]⟩
    | none =>
      match st.cur with
      | some _ =>
        if isAllDigits line then st
        else if pageArtifact line then st
        else { st with acc := st.acc ++ [line] }
      | none => st

/-- One iteration of `for line in lines`: strip the line, then classify. -/
def processLine (st : ExtState) (line0 : Str) : ExtState :=
  classifyLine st (pstrip line0)

/-- The body of `load_articles`' outer page loop: skip empty page text, else
split into lines and run the line loop. -/
def processPage (st : ExtState) (page : Str) : ExtState :=
  if page = [] then st else (splitLines page).foldl processLine st

/-- The scanning state after all pages from `start` on have been processed. -/
def loadState (pages : List Str) (start : Nat) : ExtState :=
  (pages.drop start).foldl processPage initState

/-- The `Save last one` step at the end of `load_articles`. -/
def finishScan (st : ExtState) : Store :=
  match st.cur with
  | some n => insertA st.articles n (finalize st.acc)
  | none => st.articles

/-- `load_articles`, over the sequence of per-page extracted texts (the pages
before index `start` are skipped, mirroring `start_page_index`). -/
def load_articles (pages : List Str) (start : Nat) : Store :=
  finishScan (loadState pages start)

/-! ## The query resolver (`get_answer`) -/

/-- `\s*(\d+[a-z]?)`: optional whitespace, then the captured id. -/
def tryNum (l : Str) : Option Str :=
  if (l.dropWhile isWsC).takeWhile isDigitC = [] then none
  else
    match (l.dropWhile isWsC).dropWhile isDigitC with
    | c :: _ =>
      if isLowerC c then some ((l.dropWhile isWsC).takeWhile isDigitC ++ [c])
      else some ((l.dropWhile isWsC).takeWhile isDigitC)
    | [] => some ((l.dropWhile isWsC).takeWhile isDigitC)

/-- The `article` alternative of `(?:article|art\.?)\s*(\d+[a-z]?)` at one
position. -/
def tryArticle (l : Str) : Option Str :=
  if isPre "article".toList l then tryNum (l.drop 7) else none

/-- The `art\.?` alternative at one position (with the regex engine's
fall-back from the greedy optional period). -/
def tryArt (l : Str) : Option Str :=
  if isPre "art".toList l then
    match l.drop 3 with
    | c :: r =>
      if c = '.' then
        match tryNum r with
        | some k => some k
        | none => tryNum (c :: r)
      else tryNum (c :: r)
    | [] => tryNum []
  else none

/-- One attempted match of `(?:article|art\.?)\s*(\d+[a-z]?)` at a fixed
position (alternatives in source order). -/
def keyAt (l : Str) : Option Str :=
  match tryArticle l with
  | some k => some k
  | none => tryArt l

/-- `re.search(r'(?:article|art\.?)\s*(\d+[a-z]?)', q)`: leftmost match. -/
def searchKey : Str → Option Str
  | [] => none
  | l@(_ :: t) =>
    match keyAt l with
    | some k => some k
    | none => searchKey t

/-- `re.match(r'^\d+[a-z]?$', q)`: the whole query is a bare id. -/
def bareNum (l : Str) : Bool :=
  decide (l.takeWhile isDigitC ≠ []) &&
    match l.dropWhile isDigitC with
    | [] => true
    | [c] => isLowerC c
    | _ :: _ :: _ => false

/-- The fixed not-found message of `get_answer`. -/
def notFound : Str := "The requested article is not found in the document.".toList

/-- The fixed general-fallback message of `get_answer`. -/
def noInfo : Str := "The document does not contain this information.".toList

/-- The f-string `f"Article {key}\n\n{articles[key]}"`. -/
def articleResponse (key text : Str) : Str :=
  "Article ".toList ++ key ++ '\n' :: '\n' :: text

/-- The lookup-and-answer step duplicated in both branches of `get_answer`:
return the article under `key`, or the fixed not-found message. -/
def lookupOut (articles : Store) (key : Str) : Str :=
  match lookupA articles key with
  | some t => articleResponse key t
  | none => notFound

/-- `get_answer` after its normalization step `q = query.strip().lower()`. -/
def answerNorm (q : Str) (articles : Store) : Str :=
  match searchKey q with
  | some k => lookupOut articles (k.map upperC)
  | none =>
    if bareNum q then lookupOut articles (q.map upperC) else noInfo

/-- `get_answer(query, articles)`. -/
def get_answer (query : Str) (articles : Store) : Str :=
  answerNorm ((pstrip query).map lowerC) articles

/-- The lookup key a normalized query resolves to, if any: the key-extraction
phase of `get_answer`, factored out of its two lookup branches. -/
def normKey (q : Str) : Option Str :=
  match searchKey q with
  | some k => some (k.map upperC)
  | none => if bareNum q then some (q.map upperC) else none

/-- The lookup key `get_answer` uses for a raw query, if any. -/
def resolveKey (query : Str) : Option Str :=
  normKey ((pstrip query).map lowerC)

/-! ## Well-formedness predicates (the data model of the store) -/

/-- Shape of an `ArticleId`: digits followed by at most one uppercase
letter. -/
def keyShapeB (k : Str) : Bool :=
  decide (k.takeWhile isDigitC ≠ []) &&
    match k.dropWhile isDigitC with
    | [] => true
    | [c] => isUpperC c
    | _ :: _ :: _ => false

/-- No leading and no trailing whitespace. -/
def noEdgeWsB (v : Str) : Bool :=
  (match v.head? with
   | some c => !isWsC c
   | none => true) &&
  (match v.getLast? with
   | some c => !isWsC c
   | none => true)

/-- Every binding of the store has a well-shaped key and a trimmed value. -/
def StoreWF (s : Store) : Prop :=
  ∀ kv ∈ s, keyShapeB kv.1 = true ∧ noEdgeWsB kv.2 = true

/-- Scan invariant: the store built so far is well formed and the current
article number, if any, is well shaped. -/
def InvWF (st : ExtState) : Prop :=
  StoreWF st.articles ∧ ∀ n, st.cur = some n → keyShapeB n = true

/-! ## Character-level facts -/

theorem toNat_ofNat_lt {n : Nat} (h : n < 55296) : (Char.ofNat n).toNat = n := by
  unfold Char.ofNat
  rw [dif_pos (Or.inl h)]
  rfl

theorem isDigitC_iff {c : Char} : isDigitC c = true ↔ 48 ≤ c.toNat ∧ c.toNat ≤ 57 := by
  simp [isDigitC]

theorem isUpperC_iff {c : Char} : isUpperC c = true ↔ 65 ≤ c.toNat ∧ c.toNat ≤ 90 := by
  simp [isUpperC]

theorem isLowerC_iff {c : Char} : isLowerC c = true ↔ 97 ≤ c.toNat ∧ c.toNat ≤ 122 := by
  simp [isLowerC]

theorem isWsC_eq_false_of_isDigitC {c : Char} (h : isDigitC c = true) :
    isWsC c = false := by
  rw [isDigitC_iff] at h
  simp only [isWsC, decide_eq_false_iff_not]
  omega

theorem isWsC_eq_false_of_isAlphaC {c : Char} (h : isAlphaC c = true) :
    isWsC c = false := by
  simp only [isAlphaC, Bool.or_eq_true, isUpperC_iff, isLowerC_iff] at h
  simp only [isWsC, decide_eq_false_iff_not]
  omega

theorem isDigitC_eq_false_of_isAlphaC {c : Char} (h : isAlphaC c = true) :
    isDigitC c = false := by
  simp only [isAlphaC, Bool.or_eq_true, isUpperC_iff, isLowerC_iff] at h
  simp only [isDigitC, decide_eq_false_iff_not]
  omega

theorem isAlphaC_of_isUpperC {c : Char} (h : isUpperC c = true) : isAlphaC c = true := by
  simp [isAlphaC, h]

theorem lowerC_eq_self_of_isDigitC {c : Char} (h : isDigitC c = true) : lowerC c = c := by
  rw [isDigitC_iff] at h
  rw [lowerC, if_neg]
  simp only [isUpperC, decide_eq_true_eq]
  omega

theorem upperC_eq_self_of_isDigitC {c : Char} (h : isDigitC c = true) : upperC c = c := by
  rw [isDigitC_iff] at h
  rw [upperC, if_neg]
  simp only [isLowerC, decide_eq_true_eq]
  omega

theorem lowerC_toNat_of_isUpperC {c : Char} (h : isUpperC c = true) :
    (lowerC c).toNat = c.toNat + 32 := by
  have h2 := isUpperC_iff.1 h
  rw [lowerC, if_pos h]
  exact toNat_ofNat_lt (by omega)

theorem isLowerC_lowerC_of_isAlphaC {c : Char} (h : isAlphaC c = true) :
    isLowerC (lowerC c) = true := by
  rcases Bool.or_eq_true_iff.1 h with hu | hl
  · rw [isLowerC_iff, lowerC_toNat_of_isUpperC hu]
    have := isUpperC_iff.1 hu
    omega
  · have hnu : isUpperC c = false := by
      have := isLowerC_iff.1 hl
      simp only [isUpperC, decide_eq_false_iff_not]
      omega
    rw [lowerC, if_neg (by simp [hnu])]
    exact hl

theorem upperC_lowerC_of_isUpperC {c : Char} (h : isUpperC c = true) :
    upperC (lowerC c) = c := by
  have hlt : isLowerC (lowerC c) = true :=
    isLowerC_lowerC_of_isAlphaC (isAlphaC_of_isUpperC h)
  rw [upperC, if_pos hlt, lowerC_toNat_of_isUpperC h]
  have : c.toNat + 32 - 32 = c.toNat := by omega
  rw [this, Char.ofNat_toNat]

theorem ne_of_isDigitC_of_not {c x : Char} (h : isDigitC c = true)
    (hx : isDigitC x = false) : x ≠ c := by
  intro he
  rw [he, h] at hx
  cases hx

/-! ## List-level facts about `takeWhile`, `dropWhile`, `pstrip`, `isPre` -/

theorem takeWhile_all {p : Char → Bool} :
    ∀ {l : Str}, (∀ a ∈ l, p a = true) → l.takeWhile p = l
  | [], _ => rfl
  | c :: t, h => by
    rw [List.takeWhile_cons, if_pos (h c (List.mem_cons_self c t))]
    rw [takeWhile_all (fun a ha => h a (List.mem_cons_of_mem c ha))]

theorem dropWhile_all {p : Char → Bool} :
    ∀ {l : Str}, (∀ a ∈ l, p a = true) → l.dropWhile p = []
  | [], _ => rfl
  | c :: t, h => by
    rw [List.dropWhile_cons, if_pos (h c (List.mem_cons_self c t))]
    exact dropWhile_all (fun a ha => h a (List.mem_cons_of_mem c ha))

theorem takeWhile_append_all {p : Char → Bool} :
    ∀ {d r : Str}, (∀ a ∈ d, p a = true) →
      (d ++ r).takeWhile p = d ++ r.takeWhile p
  | [], r, _ => rfl
  | c :: t, r, h => by
    rw [List.cons_append, List.takeWhile_cons,
      if_pos (h c (List.mem_cons_self c t)), List.cons_append,
      takeWhile_append_all (fun a ha => h a (List.mem_cons_of_mem c ha))]

theorem dropWhile_append_all {p : Char → Bool} :
    ∀ {d r : Str}, (∀ a ∈ d, p a = true) →
      (d ++ r).dropWhile p = r.dropWhile p
  | [], r, _ => rfl
  | c :: t, r, h => by
    rw [List.cons_append, List.dropWhile_cons,
      if_pos (h c (List.mem_cons_self c t))]
    exact dropWhile_append_all (fun a ha => h a (List.mem_cons_of_mem c ha))

theorem takeWhile_cons_false {p : Char → Bool} {c : Char} {t : Str}
    (h : p c = false) : (c :: t).takeWhile p = [] := by
  rw [List.takeWhile_cons, if_neg (by simp [h])]

theorem dropWhile_cons_false {p : Char → Bool} {c : Char} {t : Str}
    (h : p c = false) : (c :: t).dropWhile p = c :: t := by
  rw [List.dropWhile_cons, if_neg (by simp [h])]

theorem mem_takeWhile_pred {p : Char → Bool} :
    ∀ {l : Str} {a : Char}, a ∈ l.takeWhile p → p a = true
  | [], a, h => by cases h
  | c :: t, a, h => by
    rw [List.takeWhile_cons] at h
    by_cases hc : p c = true
    · rw [if_pos hc] at h
      rcases List.mem_cons.1 h with rfl | h2
      · exact hc
      · exact mem_takeWhile_pred h2
    · rw [if_neg hc] at h
      cases h

theorem dropWhile_head_false {p : Char → Bool} :
    ∀ {l : Str} {c : Char} {t : Str}, l.dropWhile p = c :: t → p c = false
  | [], c, t, h => by cases h
  | a :: l, c, t, h => by
    rw [List.dropWhile_cons] at h
    by_cases ha : p a = true
    · rw [if_pos ha] at h
      exact dropWhile_head_false h
    · rw [if_neg ha] at h
      cases h
      exact Bool.eq_false_iff.2 ha

theorem dropWhile_getLast? {p : Char → Bool} :
    ∀ {l : Str}, l.dropWhile p ≠ [] → (l.dropWhile p).getLast? = l.getLast?
  | [], h => rfl
  | a :: l, h => by
    rw [List.dropWhile_cons]
    by_cases ha : p a = true
    · rw [List.dropWhile_cons, if_pos ha] at h
      rw [if_pos ha, dropWhile_getLast? h]
      match l, h with
      | b :: l2, _ => rfl
    · rw [if_neg ha]

theorem dropWhile_head?_false {p : Char → Bool} {l : Str} {c : Char}
    (h : (l.dropWhile p).head? = some c) : p c = false := by
  cases hd : l.dropWhile p with
  | nil => rw [hd] at h; cases h
  | cons a t =>
    rw [hd, List.head?_cons] at h
    cases h
    exact dropWhile_head_false hd

theorem pstrip_eq_self {l : Str}
    (h1 : ∀ c, l.head? = some c → isWsC c = false)
    (h2 : ∀ c, l.getLast? = some c → isWsC c = false) :
    pstrip l = l := by
  have hd : l.dropWhile isWsC = l := by
    cases l with
    | nil => rfl
    | cons c t => exact dropWhile_cons_false (h1 c rfl)
  rw [pstrip, hd]
  have hr : l.reverse.dropWhile isWsC = l.reverse := by
    cases hrev : l.reverse with
    | nil => rfl
    | cons c t =>
      refine dropWhile_cons_false (h2 c ?_)
      rw [← List.head?_reverse, hrev, List.head?_cons]
  rw [hr, List.reverse_reverse]

theorem noEdgeWs_pstrip (l : Str) :
    (∀ c, (pstrip l).head? = some c → isWsC c = false) ∧
    (∀ c, (pstrip l).getLast? = some c → isWsC c = false) := by
  constructor
  · intro c hc
    rw [pstrip, List.head?_reverse] at hc
    have hne : (l.dropWhile isWsC).reverse.dropWhile isWsC ≠ [] := by
      intro h0
      rw [h0] at hc
      cases hc
    rw [dropWhile_getLast? hne, List.getLast?_reverse] at hc
    exact dropWhile_head?_false hc
  · intro c hc
    rw [pstrip, List.getLast?_reverse] at hc
    exact dropWhile_head?_false hc

theorem isPre_append (p r : Str) : isPre p (p ++ r) = true := by
  induction p with
  | nil => rfl
  | cons c t ih => simp [isPre, ih]

theorem isPre_cons_false {x c : Char} {p t : Str} (h : x ≠ c) :
    isPre (x :: p) (c :: t) = false := by
  simp [isPre, h]

theorem isPre_nil_false (x : Char) (p : Str) : isPre (x :: p) [] = false := rfl

/-! ## Inversion facts about the extractor's patterns -/

theorem takeWhile_ne_nil_head {l : Str}
    (h : l.takeWhile isDigitC ≠ []) :
    ∃ c t, l = c :: t ∧ isDigitC c = true := by
  cases l with
  | nil => exact absurd rfl h
  | cons c t =>
    by_cases hc : isDigitC c = true
    · exact ⟨c, t, rfl, hc⟩
    · exact absurd (takeWhile_cons_false (Bool.eq_false_iff.2 hc)) h

theorem artNumFrom_inv {l : Str} {pr : Str × Str}
    (h : artNumFrom l = some pr) :
    l.takeWhile isDigitC ≠ [] ∧
      ∃ c rest, l.dropWhile isDigitC = c :: rest ∧
        (c = '.' ∨ isUpperC c = true) := by
  unfold artNumFrom at h
  by_cases hd : l.takeWhile isDigitC = []
  · rw [if_pos hd] at h
    cases h
  · rw [if_neg hd] at h
    split at h
    next => cases h
    next c rest heq =>
      refine ⟨hd, c, rest, heq, ?_⟩
      by_cases hc : c = '.'
      · exact Or.inl hc
      · rw [if_neg hc] at h
        by_cases hu : isUpperC c = true
        · exact Or.inr hu
        · rw [if_neg hu] at h
          cases h

theorem artPre_inv {l : Str} {pr : Str × Str} (h : artPre l = some pr) :
    l.takeWhile isDigitC ≠ [] ∧
      ∃ r2, l.dropWhile isDigitC = '[' :: r2 ∧ artNumFrom r2 = some pr := by
  unfold artPre at h
  by_cases hd : l.takeWhile isDigitC = []
  · rw [if_pos hd] at h
    cases h
  · rw [if_neg hd] at h
    split at h
    next c r2 heq =>
      by_cases hc : c = '['
      · subst hc
        rw [if_pos rfl] at h
        exact ⟨hd, r2, heq, h⟩
      · rw [if_neg hc] at h
        cases h
    next => cases h

theorem artMatch_inv {l : Str} {pr : Str × Str} (h : artMatch l = some pr) :
    artPre l = some pr ∨ (artPre l = none ∧ artNumFrom l = some pr) := by
  unfold artMatch at h
  cases hp : artPre l with
  | some q =>
    rw [hp] at h
    exact Or.inl h
  | none =>
    rw [hp] at h
    exact Or.inr ⟨rfl, h⟩

theorem structCore_cons_digit_false {c : Char} {t : Str} (h : isDigitC c = true) :
    structCore (c :: t) = false := by
  have hP : isPre "PART".toList (c :: t) = false := by
    show isPre ('P' :: "ART".toList) (c :: t) = false
    exact isPre_cons_false (ne_of_isDigitC_of_not h (by decide))
  have hC : isPre "CHAPTER".toList (c :: t) = false := by
    show isPre ('C' :: "HAPTER".toList) (c :: t) = false
    exact isPre_cons_false (ne_of_isDigitC_of_not h (by decide))
  unfold structCore
  rw [hP, hC]
  rfl

theorem structureMatch_false_of_artMatch {l : Str} {pr : Str × Str}
    (h : artMatch l = some pr) : structureMatch l = false := by
  have hdS : l.takeWhile isDigitC ≠ [] := by
    rcases artMatch_inv h with hp | ⟨_, hn⟩
    exacts [(artPre_inv hp).1, (artNumFrom_inv hn).1]
  obtain ⟨c0, t0, hl, hc0⟩ := takeWhile_ne_nil_head hdS
  have hS : structCore l = false := by
    rw [hl]
    exact structCore_cons_digit_false hc0
  unfold structureMatch
  rw [hS, Bool.or_false]
  rcases artMatch_inv h with hp | ⟨hp, hn⟩
  · obtain ⟨_, r2, hr, hnum⟩ := artPre_inv hp
    obtain ⟨c2, t2, hr2, hc2⟩ := takeWhile_ne_nil_head (artNumFrom_inv hnum).1
    rw [hr, hr2]
    show (decide (l.takeWhile isDigitC ≠ []) &&
      (decide (('[' : Char) = '[') && structCore (c2 :: t2))) = false
    rw [structCore_cons_digit_false hc2, Bool.and_false, Bool.and_false]
  · obtain ⟨_, c, rest, hr, hc⟩ := artNumFrom_inv hn
    rw [hr]
    have hbr : c ≠ '[' := by
      rcases hc with rfl | hu
      · decide
      · intro he
        rw [he] at hu
        exact absurd hu (by decide)
    show (decide (l.takeWhile isDigitC ≠ []) &&
      (decide (c = '[') && structCore rest)) = false
    rw [decide_eq_false hbr, Bool.false_and, Bool.and_false]

theorem footnoteMatch_inv {l : Str} (h : footnoteMatch l = true) :
    l.takeWhile isDigitC ≠ [] ∧
      ∃ r2, l.dropWhile isDigitC = '.' :: r2 ∧ r2.takeWhile isWsC ≠ [] := by
  unfold footnoteMatch at h
  rw [Bool.and_eq_true] at h
  obtain ⟨h1, h2⟩ := h
  refine ⟨of_decide_eq_true h1, ?_⟩
  split at h2
  next c r2 heq =>
    rw [Bool.and_eq_true, Bool.and_eq_true] at h2
    obtain ⟨⟨hdot, hws⟩, _⟩ := h2
    rw [decide_eq_true_eq] at hdot
    subst hdot
    exact ⟨r2, heq, of_decide_eq_true hws⟩
  next => cases h2

theorem artMatch_of_footnote {l : Str} (h : footnoteMatch l = true) :
    ∃ ct, artMatch l = some (l.takeWhile isDigitC, ct) := by
  obtain ⟨hd, r2, hr, hws⟩ := footnoteMatch_inv h
  refine ⟨r2.dropWhile isWsC, ?_⟩
  have hpre : artPre l = none := by
    unfold artPre
    rw [if_neg hd, hr]
    show (if ('.' : Char) = '[' then artNumFrom r2 else none) = none
    rw [if_neg (by decide)]
  have hnum : artNumFrom l = some (l.takeWhile isDigitC, r2.dropWhile isWsC) := by
    unfold artNumFrom
    rw [if_neg hd, hr]
    show (if ('.' : Char) = '.' then
        if r2.takeWhile isWsC = [] then none
        else some (l.takeWhile isDigitC, r2.dropWhile isWsC)
      else _) = _
    rw [if_pos rfl, if_neg hws]
  unfold artMatch
  rw [hpre]
  exact hnum

/-! ## Reduction of `classifyLine` on an article-start line -/

theorem artMatch_nil : artMatch ([] : Str) = none := rfl

theorem classifyLine_art {st : ExtState} {line num content : Str}
    (hne : line ≠ []) (hstruct : structureMatch line = false)
    (hart : artMatch line = some (num, content)) :
    classifyLine st line =
      (if footnoteMatch line then st
       else if containsSub content "Amendment) Act".toList ||
               containsSub content "w.e.f.".toList then st
       else if !content.any isAlphaC then st
       else if st.seen.contains num then st
       else ⟨(match st.cur with
              | some n => insertA st.articles n (finalize st.acc)
              | none => st.articles),
             num :: st.seen, some num, [content]⟩) := by
  unfold classifyLine
  rw [if_neg hne, if_neg (by simp [hstruct]), hart]

/-- C3: once an article id is in the seen set, any later line matching the
article-start pattern with that id leaves the scanning state (store,
seen set, current article, accumulated text) entirely unchanged. -/
theorem claim3_duplicate_id_line_discarded (st : ExtState)
    (line num content : Str)
    (hart : artMatch (pstrip line) = some (num, content))
    (hseen : num ∈ st.seen) :
    processLine st line = st := by
  have hne : pstrip line ≠ [] := by
    intro h0
    rw [h0, artMatch_nil] at hart
    cases hart
  unfold processLine
  rw [classifyLine_art hne (structureMatch_false_of_artMatch hart) hart]
  have hc : st.seen.contains num = true := List.elem_iff.2 hseen
  split_ifs <;> rfl

/-- C3 witness: a line restating an already-finalized article id is
discarded without touching the existing entry. -/
theorem claim3_witness :
    processLine
      ⟨[("21".toList, "old body".toList)], ["21".toList], none, []⟩
      "21. New text here".toList =
    ⟨[("21".toList, "old body".toList)], ["21".toList], none, []⟩ :=
  claim3_duplicate_id_line_discarded _ _ "21".toList "New text here".toList
    (by decide) (by decide)

/-- C4: a line matching the explicit footnote pattern, or an article-start
line whose content contains "Amendment) Act" or "w.e.f." or has no letter,
leaves the scanning state (store and accumulation) entirely unchanged. -/
theorem claim4_footnote_line_discarded (st : ExtState) (line : Str)
    (h : footnoteMatch (pstrip line) = true ∨
      ∃ num content, artMatch (pstrip line) = some (num, content) ∧
        (containsSub content "Amendment) Act".toList = true ∨
         containsSub content "w.e.f.".toList = true ∨
         content.any isAlphaC = false)) :
    processLine st line = st := by
  have hart2 : ∃ num content, artMatch (pstrip line) = some (num, content) := by
    rcases h with hfn | ⟨num, content, hart, _⟩
    · obtain ⟨ct, hm⟩ := artMatch_of_footnote hfn
      exact ⟨_, ct, hm⟩
    · exact ⟨num, content, hart⟩
  obtain ⟨num, content, hart⟩ := hart2
  have hne : pstrip line ≠ [] := by
    intro h0
    rw [h0, artMatch_nil] at hart
    cases hart
  unfold processLine
  rw [classifyLine_art hne (structureMatch_false_of_artMatch hart) hart]
  rcases h with hfn | ⟨num2, content2, hart2, hc⟩
  · rw [if_pos hfn]
  · rw [hart2] at hart
    injection hart with hart3
    injection hart3 with hnum hcontent
    subst hnum
    subst hcontent
    by_cases hfn : footnoteMatch (pstrip line) = true
    · rw [if_pos hfn]
    · rw [if_neg hfn]
      rcases hc with hA | hW | hL
      · rw [if_pos (by rw [hA, Bool.true_or])]
      · rw [if_pos (by rw [hW, Bool.or_true])]
      · by_cases hAW : (containsSub content2 "Amendment) Act".toList ||
            containsSub content2 "w.e.f.".toList) = true
        · rw [if_pos hAW]
        · rw [if_neg hAW, if_pos (by rw [hL]; rfl)]

/-- C4 witness: the amendment-history footnote line from the spec leaves a
mid-article scanning state unchanged. -/
theorem claim4_witness :
    processLine ⟨[], ["21".toList], some "21".toList, ["body so far".toList]⟩
      "1. Subs. by the Constitution (Forty-second Amendment) Act, 1976".toList =
    ⟨[], ["21".toList], some "21".toList, ["body so far".toList]⟩ :=
  claim4_footnote_line_discarded _ _ (Or.inl (by decide))

/-! ## Store well-formedness is a scan invariant -/

theorem noEdgeWsB_pstrip (l : Str) : noEdgeWsB (pstrip l) = true := by
  obtain ⟨h1, h2⟩ := noEdgeWs_pstrip l
  unfold noEdgeWsB
  rw [Bool.and_eq_true]
  constructor
  · split
    next c hh => simp [h1 c hh]
    next => rfl
  · split
    next c hh => simp [h2 c hh]
    next => rfl

theorem artNumFrom_num {l num ct : Str} (h : artNumFrom l = some (num, ct)) :
    num = l.takeWhile isDigitC ∨
      ∃ c, num = l.takeWhile isDigitC ++ [c] ∧ isUpperC c = true := by
  unfold artNumFrom at h
  by_cases hd : l.takeWhile isDigitC = []
  · rw [if_pos hd] at h
    cases h
  · rw [if_neg hd] at h
    split at h
    next => cases h
    next c rest heq =>
      by_cases hc : c = '.'
      · rw [if_pos hc] at h
        by_cases hws : rest.takeWhile isWsC = []
        · rw [if_pos hws] at h
          cases h
        · rw [if_neg hws] at h
          simp only [Option.some.injEq, Prod.mk.injEq] at h
          exact Or.inl h.1.symm
      · rw [if_neg hc] at h
        by_cases hu : isUpperC c = true
        · rw [if_pos hu] at h
          split at h
          next => cases h
          next =>
            rename_i c2 r2
            by_cases hc2 : c2 = '.'
            · rw [if_pos hc2] at h
              by_cases hws : r2.takeWhile isWsC = []
              · rw [if_pos hws] at h
                cases h
              · rw [if_neg hws] at h
                simp only [Option.some.injEq, Prod.mk.injEq] at h
                exact Or.inr ⟨c, h.1.symm, hu⟩
            · rw [if_neg hc2] at h
              cases h
        · rw [if_neg hu] at h
          cases h

theorem keyShapeB_takeWhile {l : Str} (hd : l.takeWhile isDigitC ≠ []) :
    keyShapeB (l.takeWhile isDigitC) = true := by
  have hall : ∀ a ∈ l.takeWhile isDigitC, isDigitC a = true :=
    fun a ha => mem_takeWhile_pred ha
  unfold keyShapeB
  rw [takeWhile_all hall, dropWhile_all hall]
  simp [hd]

theorem keyShapeB_takeWhile_upper {l : Str} {c : Char}
    (hd : l.takeWhile isDigitC ≠ []) (hu : isUpperC c = true) :
    keyShapeB (l.takeWhile isDigitC ++ [c]) = true := by
  have hall : ∀ a ∈ l.takeWhile isDigitC, isDigitC a = true :=
    fun a ha => mem_takeWhile_pred ha
  have hcd : isDigitC c = false := by
    rw [isUpperC_iff] at hu
    simp only [isDigitC, decide_eq_false_iff_not]
    omega
  unfold keyShapeB
  rw [takeWhile_append_all hall, dropWhile_append_all hall,
    takeWhile_cons_false hcd, dropWhile_cons_false hcd]
  simp [hd, hu]

theorem artMatch_keyShape {l num ct : Str}
    (h : artMatch l = some (num, ct)) : keyShapeB num = true := by
  rcases artMatch_inv h with hp | ⟨_, hn⟩
  · obtain ⟨_, r2, _, hnum⟩ := artPre_inv hp
    rcases artNumFrom_num hnum with h2 | ⟨c, h2, hu⟩
    · rw [h2]
      exact keyShapeB_takeWhile (artNumFrom_inv hnum).1
    · rw [h2]
      exact keyShapeB_takeWhile_upper (artNumFrom_inv hnum).1 hu
  · rcases artNumFrom_num hn with h2 | ⟨c, h2, hu⟩
    · rw [h2]
      exact keyShapeB_takeWhile (artNumFrom_inv hn).1
    · rw [h2]
      exact keyShapeB_takeWhile_upper (artNumFrom_inv hn).1 hu

theorem mem_insertA {kv : Str × Str} :
    ∀ {s : Store} {k v : Str}, kv ∈ insertA s k v → kv = (k, v) ∨ kv ∈ s := by
  intro s
  induction s with
  | nil =>
    intro k v hm
    rcases List.mem_singleton.1 hm with rfl
    exact Or.inl rfl
  | cons hd tl ih =>
    intro k v hm
    obtain ⟨k0, v0⟩ := hd
    unfold insertA at hm
    by_cases hk : k0 = k
    · rw [if_pos hk] at hm
      rcases List.mem_cons.1 hm with rfl | h2
      · exact Or.inl (by rw [hk])
      · exact Or.inr (List.mem_cons_of_mem _ h2)
    · rw [if_neg hk] at hm
      rcases List.mem_cons.1 hm with rfl | h2
      · exact Or.inr (List.mem_cons_self _ _)
      · rcases ih h2 with h3 | h3
        · exact Or.inl h3
        · exact Or.inr (List.mem_cons_of_mem _ h3)

theorem StoreWF_insertA {s : Store} {k v : Str} (hs : StoreWF s)
    (hk : keyShapeB k = true) (hv : noEdgeWsB v = true) :
    StoreWF (insertA s k v) := by
  intro kv hm
  rcases mem_insertA hm with rfl | h2
  · exact ⟨hk, hv⟩
  · exact hs kv h2

theorem classifyLine_wf {st : ExtState} {line : Str} (h : InvWF st) :
    InvWF (classifyLine st line) := by
  unfold classifyLine
  split
  · exact h
  split
  · split
    next n hcur =>
      refine ⟨StoreWF_insertA h.1 (h.2 n hcur) (noEdgeWsB_pstrip _), ?_⟩
      intro n2 hn2
      cases hn2
    next => exact h
  · split
    next num content hart =>
      split_ifs
      any_goals exact h
      constructor
      · split
        next n hcur => exact StoreWF_insertA h.1 (h.2 n hcur) (noEdgeWsB_pstrip _)
        next => exact h.1
      · intro n2 hn2
        cases hn2
        exact artMatch_keyShape hart
    next hart =>
      split
      next hcur =>
        split_ifs
        any_goals exact h
      next => exact h

theorem foldl_preserve {α β : Type} {P : α → Prop} {f : α → β → α}
    (hf : ∀ a b, P a → P (f a b)) :
    ∀ (l : List β) (a : α), P a → P (l.foldl f a)
  | [], _, h => h
  | b :: t, a, h => foldl_preserve hf t (f a b) (hf a b h)

theorem processLine_wf {st : ExtState} {line0 : Str} (h : InvWF st) :
    InvWF (processLine st line0) := classifyLine_wf h

theorem processPage_wf {st : ExtState} {page : Str} (h : InvWF st) :
    InvWF (processPage st page) := by
  unfold processPage
  split
  · exact h
  · exact foldl_preserve (fun a b ha => processLine_wf ha) _ _ h

theorem loadState_wf (pages : List Str) (start : Nat) :
    InvWF (loadState pages start) := by
  unfold loadState
  refine foldl_preserve (fun a b ha => processPage_wf ha) _ _ ?_
  constructor
  · intro kv hkv
    cases hkv
  · intro n hn
    cases hn

/-- C9: every key of the extracted store is digits plus at most one
uppercase letter, and every stored value is free of leading and trailing
whitespace. -/
theorem claim9_store_wellformed (pages : List Str) (start : Nat)
    (k v : Str) (hm : (k, v) ∈ load_articles pages start) :
    keyShapeB k = true ∧ noEdgeWsB v = true := by
  have hinv := loadState_wf pages start
  unfold load_articles finishScan at hm
  split at hm
  next =>
    rename_i n hcur
    rcases mem_insertA hm with heq | hmem
    · injection heq with h1 h2
      subst h1
      subst h2
      exact ⟨hinv.2 _ hcur, noEdgeWsB_pstrip _⟩
    · exact hinv.1 (k, v) hmem
  next => exact hinv.1 (k, v) hm

/-- C9 witness: on the two synthetic pages, the extracted entry for
article 21 has a well-shaped key and a trimmed value. -/
theorem claim9_witness :
    keyShapeB "21".toList = true ∧
    noEdgeWsB ("Protection of life and personal liberty.\nNo person shall be deprived...".toList) = true :=
  claim9_store_wellformed
    ["21. Protection of life and personal liberty.\nNo person shall be deprived...".toList,
     "PART IV".toList] 0 _ _ (by decide)

/-! ## The two-page synthetic scenario -/

/-- C2 counterexample: a page sequence that contains the two required lines
in order and a later "PART IV" page, but in which the store maps "21" to a
longer text (the extra continuation line is accumulated too), so the claim
as universally stated is false. -/
theorem claim2_counterexample :
    lookupA
      (load_articles
        ["21. Protection of life and personal liberty.\nNo person shall be deprived...\nSome extra line".toList,
         "PART IV".toList] 0)
      "21".toList =
      some "Protection of life and personal liberty.\nNo person shall be deprived...\nSome extra line".toList ∧
    ("Protection of life and personal liberty.\nNo person shall be deprived...\nSome extra line".toList : Str) ≠
      "Protection of life and personal liberty.\nNo person shall be deprived...".toList := by
  exact ⟨rfl, by decide⟩

/-- C2 amended: for pages consisting exactly of page A with the two synthetic
lines and page B "PART IV" (after arbitrary skipped pages), the scan ends
with exactly the store \x7b"21" ↦ the two lines\x7d, the current article reset
to none and its accumulator empty (so the "PART IV" line finalized the
article and was itself discarded). -/
theorem claim2_two_page_scenario (pre : List Str) :
    loadState
      (pre ++
        ["21. Protection of life and personal liberty.\nNo person shall be deprived...".toList,
         "PART IV".toList]) pre.length =
      ⟨[("21".toList,
         "Protection of life and personal liberty.\nNo person shall be deprived...".toList)],
        ["21".toList], none, []⟩ ∧
    load_articles
      (pre ++
        ["21. Protection of life and personal liberty.\nNo person shall be deprived...".toList,
         "PART IV".toList]) pre.length =
      [("21".toList,
        "Protection of life and personal liberty.\nNo person shall be deprived...".toList)] := by
  unfold load_articles loadState
  rw [List.drop_left]
  exact ⟨rfl, rfl⟩

/-- C10: the keyword search finds "art" inside "part", so "part 21" is
answered exactly like "article 21" for every store. -/
theorem claim10_part_query_matches_art (s : Store) :
    get_answer "part 21".toList s = get_answer "article 21".toList s := rfl

/-- C8: `get_answer` is case-insensitive in the article keyword and in the
id, for every store. -/
theorem claim8_case_insensitive (s : Store) :
    get_answer "ARTICLE 21".toList s = get_answer "article 21".toList s ∧
    get_answer "article 21a".toList s = get_answer "article 21A".toList s :=
  ⟨rfl, rfl⟩

/-- C5 counterexample: on a store that contains key "21", the query
"article. 21" does not resolve to article 21 (no lookup key is produced and
the general fallback is returned), while "art. 21" does, so the claim that
"article" may also be followed by a period is false. -/
theorem claim5_counterexample :
    get_answer "article. 21".toList
      [("21".toList, "Protection of life and personal liberty.".toList)] = noInfo ∧
    get_answer "art. 21".toList
      [("21".toList, "Protection of life and personal liberty.".toList)] =
      articleResponse "21".toList "Protection of life and personal liberty.".toList ∧
    noInfo ≠
      articleResponse "21".toList "Protection of life and personal liberty.".toList := by
  refine ⟨rfl, rfl, by decide⟩

/-- C5 amended: only the short keyword "art" may carry the optional period;
"art. 21" resolves exactly like "article 21" (key "21"), while "article. 21"
produces no lookup key at all and gets the general fallback, for every
store. -/
theorem claim5_art_dot_only (s : Store) :
    get_answer "art. 21".toList s = get_answer "article 21".toList s ∧
    get_answer "article. 21".toList s = noInfo ∧
    resolveKey "art. 21".toList = some "21".toList ∧
    resolveKey "article. 21".toList = none :=
  ⟨rfl, rfl, rfl, rfl⟩

/-! ## The resolver's failure modes -/

theorem answerNorm_eq_normKey (q : Str) (s : Store) :
    answerNorm q s =
      (match normKey q with
       | some key => lookupOut s key
       | none => noInfo) := by
  unfold answerNorm normKey
  cases hsk : searchKey q with
  | some k => rfl
  | none =>
    by_cases hb : bareNum q = true
    · rw [if_pos hb, if_pos hb]
    · rw [if_neg hb, if_neg hb]

theorem get_answer_eq_resolveKey (query : Str) (s : Store) :
    get_answer query s =
      (match resolveKey query with
       | some key => lookupOut s key
       | none => noInfo) :=
  answerNorm_eq_normKey ((pstrip query).map lowerC) s

/-- C6: whenever a lookup key is produced but absent from the store the
resolver returns the fixed not-found message; whenever no key can be
produced it returns the fixed general fallback; the two messages are
distinct strings. -/
theorem claim6_failure_messages (query : Str) (s : Store) :
    (∀ k, resolveKey query = some k → lookupA s k = none →
      get_answer query s = notFound) ∧
    (resolveKey query = none → get_answer query s = noInfo) ∧
    notFound ≠ noInfo := by
  refine ⟨?_, ?_, by decide⟩
  · intro k hk hl
    rw [get_answer_eq_resolveKey, hk]
    show lookupOut s k = notFound
    unfold lookupOut
    rw [hl]
  · intro hk
    rw [get_answer_eq_resolveKey, hk]

/-- C6 witness: "article 99" against a store without key "99" gets the
not-found message; "what is democracy" gets the general fallback. -/
theorem claim6_witness :
    get_answer "article 99".toList [("21".toList, "B".toList)] = notFound ∧
    get_answer "what is democracy".toList [("21".toList, "B".toList)] = noInfo :=
  ⟨(claim6_failure_messages "article 99".toList
      [("21".toList, "B".toList)]).1 "99".toList (by decide) (by decide),
   (claim6_failure_messages "what is democracy".toList
      [("21".toList, "B".toList)]).2.1 (by decide)⟩

/-! ## Computation of the resolver on digit-shaped queries -/

theorem map_lowerC_digits {d : Str} (h : ∀ c ∈ d, isDigitC c = true) :
    d.map lowerC = d := by
  induction d with
  | nil => rfl
  | cons c t ih =>
    rw [List.map_cons, lowerC_eq_self_of_isDigitC (h c (List.mem_cons_self c t)),
      ih (fun a ha => h a (List.mem_cons_of_mem c ha))]

theorem map_upperC_digits {d : Str} (h : ∀ c ∈ d, isDigitC c = true) :
    d.map upperC = d := by
  induction d with
  | nil => rfl
  | cons c t ih =>
    rw [List.map_cons, upperC_eq_self_of_isDigitC (h c (List.mem_cons_self c t)),
      ih (fun a ha => h a (List.mem_cons_of_mem c ha))]

theorem getLast?_pred {p : Char → Bool} :
    ∀ {l : Str} {c : Char}, (∀ a ∈ l, p a = true) → l.getLast? = some c →
      p c = true
  | [], c, _, h => by cases h
  | [a], c, hall, h => by
    cases h
    exact hall a (List.mem_singleton_self a)
  | a :: b :: t, c, hall, h => by
    rw [List.getLast?_cons_cons] at h
    exact getLast?_pred (fun x hx => hall x (List.mem_cons_of_mem a hx)) h

theorem getLast?_append_right :
    ∀ (l1 l2 : Str), l2 ≠ [] → (l1 ++ l2).getLast? = l2.getLast?
  | [], l2, _ => rfl
  | a :: t, l2, h => by
    rw [List.cons_append]
    cases htl : t ++ l2 with
    | nil => exact absurd (List.append_eq_nil.1 htl).2 h
    | cons b l3 =>
      rw [List.getLast?_cons_cons, ← htl, getLast?_append_right t l2 h]

theorem getLast?_append_single (l : Str) (c : Char) :
    (l ++ [c]).getLast? = some c := by
  rw [getLast?_append_right l [c] (by simp)]
  rfl

theorem pstrip_digits_id (d o : Str) (hd : d ≠ [])
    (hdig : ∀ c ∈ d, isDigitC c = true)
    (ho : o = [] ∨ ∃ c, o = [c] ∧ isAlphaC c = true) :
    pstrip (d ++ o) = d ++ o := by
  apply pstrip_eq_self
  · intro c hc
    cases d with
    | nil => exact absurd rfl hd
    | cons c0 d' =>
      rw [List.cons_append, List.head?_cons] at hc
      cases hc
      exact isWsC_eq_false_of_isDigitC (hdig _ (List.mem_cons_self _ d'))
  · intro c hc
    rcases ho with rfl | ⟨c2, rfl, ha⟩
    · rw [List.append_nil] at hc
      exact isWsC_eq_false_of_isDigitC (getLast?_pred hdig hc)
    · rw [getLast?_append_single] at hc
      cases hc
      exact isWsC_eq_false_of_isAlphaC ha

theorem dropWhile_ws_digits (d o : Str) (hd : d ≠ [])
    (hdig : ∀ c ∈ d, isDigitC c = true) :
    (d ++ o).dropWhile isWsC = d ++ o := by
  cases d with
  | nil => exact absurd rfl hd
  | cons c0 d' =>
    exact dropWhile_cons_false
      (isWsC_eq_false_of_isDigitC (hdig _ (List.mem_cons_self _ d')))

theorem takeWhile_digits_of_tail {o : Str}
    (ho : o = [] ∨ ∃ c, o = [c] ∧ isLowerC c = true) :
    o.takeWhile isDigitC = [] := by
  rcases ho with rfl | ⟨c, rfl, hl⟩
  · rfl
  · refine takeWhile_cons_false ?_
    rw [isLowerC_iff] at hl
    simp only [isDigitC, decide_eq_false_iff_not]
    omega

theorem dropWhile_digits_of_tail {o : Str}
    (ho : o = [] ∨ ∃ c, o = [c] ∧ isLowerC c = true) :
    o.dropWhile isDigitC = o := by
  rcases ho with rfl | ⟨c, rfl, hl⟩
  · rfl
  · refine dropWhile_cons_false ?_
    rw [isLowerC_iff] at hl
    simp only [isDigitC, decide_eq_false_iff_not]
    omega

theorem tryNum_ws_digits (d o : Str) (hd : d ≠ [])
    (hdig : ∀ c ∈ d, isDigitC c = true)
    (ho : o = [] ∨ ∃ c, o = [c] ∧ isLowerC c = true) :
    tryNum (' ' :: (d ++ o)) = some (d ++ o) := by
  have h1 : (' ' :: (d ++ o)).dropWhile isWsC = d ++ o := by
    rw [List.dropWhile_cons, if_pos (by decide)]
    exact dropWhile_ws_digits d o hd hdig
  have h2 : (d ++ o).takeWhile isDigitC = d := by
    rw [takeWhile_append_all hdig, takeWhile_digits_of_tail ho, List.append_nil]
  have h3 : (d ++ o).dropWhile isDigitC = o := by
    rw [dropWhile_append_all hdig, dropWhile_digits_of_tail ho]
  unfold tryNum
  rw [h1, h2, h3, if_neg hd]
  rcases ho with rfl | ⟨c, rfl, hl⟩
  · rw [List.append_nil]
  · show (if isLowerC c = true then some (d ++ [c]) else some d) = some (d ++ [c])
    rw [if_pos hl]

theorem isPre_article_cons (x : Str) :
    isPre "article".toList ('a' :: 'r' :: 't' :: 'i' :: 'c' :: 'l' :: 'e' :: ' ' :: x) = true :=
  isPre_append "article".toList (' ' :: x)

theorem keyAt_article (d o : Str) (hd : d ≠ [])
    (hdig : ∀ c ∈ d, isDigitC c = true)
    (ho : o = [] ∨ ∃ c, o = [c] ∧ isLowerC c = true) :
    keyAt ('a' :: 'r' :: 't' :: 'i' :: 'c' :: 'l' :: 'e' :: ' ' :: (d ++ o)) =
      some (d ++ o) := by
  unfold keyAt tryArticle
  rw [if_pos (isPre_article_cons (d ++ o))]
  rw [show (('a' :: 'r' :: 't' :: 'i' :: 'c' :: 'l' :: 'e' :: ' ' :: (d ++ o)).drop 7 : Str) =
    ' ' :: (d ++ o) from rfl]
  rw [tryNum_ws_digits d o hd hdig ho]

theorem searchKey_cons (c : Char) (t : Str) :
    searchKey (c :: t) =
      (match keyAt (c :: t) with
       | some k => some k
       | none => searchKey t) := by
  simp only [searchKey]

theorem isPre_two_nil (x y : Char) (p : Str) (c : Char) :
    isPre (x :: y :: p) [c] = false := by
  simp [isPre]

theorem tryArticle_single (c : Char) : tryArticle [c] = none := by
  unfold tryArticle
  rw [if_neg]
  intro hco
  rw [show ("article".toList : Str) = 'a' :: 'r' :: "ticle".toList from rfl,
    isPre_two_nil] at hco
  cases hco

theorem tryArt_single (c : Char) : tryArt [c] = none := by
  unfold tryArt
  rw [if_neg]
  intro hco
  rw [show ("art".toList : Str) = 'a' :: 'r' :: "t".toList from rfl,
    isPre_two_nil] at hco
  cases hco

theorem keyAt_single (c : Char) : keyAt [c] = none := by
  unfold keyAt
  rw [tryArticle_single]
  exact tryArt_single c

theorem tryArticle_not_a {c : Char} (t : Str) (hc : c ≠ 'a') :
    tryArticle (c :: t) = none := by
  unfold tryArticle
  rw [if_neg]
  intro hco
  rw [show ("article".toList : Str) = 'a' :: "rticle".toList from rfl,
    isPre_cons_false (Ne.symm hc)] at hco
  cases hco

theorem tryArt_not_a {c : Char} (t : Str) (hc : c ≠ 'a') :
    tryArt (c :: t) = none := by
  unfold tryArt
  rw [if_neg]
  intro hco
  rw [show ("art".toList : Str) = 'a' :: "rt".toList from rfl,
    isPre_cons_false (Ne.symm hc)] at hco
  cases hco

theorem keyAt_not_a {c : Char} (t : Str) (hc : c ≠ 'a') :
    keyAt (c :: t) = none := by
  unfold keyAt
  rw [tryArticle_not_a t hc]
  exact tryArt_not_a t hc

theorem searchKey_no_art :
    ∀ (d : Str), (∀ c ∈ d, isDigitC c = true) →
      ∀ (o : Str), (o = [] ∨ ∃ c, o = [c] ∧ isLowerC c = true) →
        searchKey (d ++ o) = none
  | [], _, o, ho => by
    rcases ho with rfl | ⟨c, rfl, _⟩
    · rfl
    · rw [List.nil_append, searchKey_cons, keyAt_single]
      rfl
  | c0 :: d', hdig, o, ho => by
    rw [List.cons_append, searchKey_cons,
      keyAt_not_a (d' ++ o)
        (Ne.symm (ne_of_isDigitC_of_not
          (hdig c0 (List.mem_cons_self c0 d')) (by decide)))]
    exact searchKey_no_art d'
      (fun a ha => hdig a (List.mem_cons_of_mem c0 ha)) o ho

theorem bareNum_digits (d o : Str) (hd : d ≠ [])
    (hdig : ∀ c ∈ d, isDigitC c = true)
    (ho : o = [] ∨ ∃ c, o = [c] ∧ isLowerC c = true) :
    bareNum (d ++ o) = true := by
  have h2 : (d ++ o).takeWhile isDigitC = d := by
    rw [takeWhile_append_all hdig, takeWhile_digits_of_tail ho, List.append_nil]
  have h3 : (d ++ o).dropWhile isDigitC = o := by
    rw [dropWhile_append_all hdig, dropWhile_digits_of_tail ho]
  unfold bareNum
  rw [h2, h3]
  rcases ho with rfl | ⟨c, rfl, hl⟩
  · simp [hd]
  · simp [hd, hl]

theorem searchKey_article (d o : Str) (hd : d ≠ [])
    (hdig : ∀ c ∈ d, isDigitC c = true)
    (ho : o = [] ∨ ∃ c, o = [c] ∧ isLowerC c = true) :
    searchKey ('a' :: 'r' :: 't' :: 'i' :: 'c' :: 'l' :: 'e' :: ' ' :: (d ++ o)) =
      some (d ++ o) := by
  rw [searchKey_cons, keyAt_article d o hd hdig ho]

theorem pstrip_article_query (d o : Str) (hd : d ≠ [])
    (hdig : ∀ c ∈ d, isDigitC c = true)
    (ho : o = [] ∨ ∃ c, o = [c] ∧ isAlphaC c = true) :
    pstrip ('A' :: 'r' :: 't' :: 'i' :: 'c' :: 'l' :: 'e' :: ' ' :: (d ++ o)) =
      'A' :: 'r' :: 't' :: 'i' :: 'c' :: 'l' :: 'e' :: ' ' :: (d ++ o) := by
  apply pstrip_eq_self
  · intro c hc
    cases hc
    decide
  · intro c hc
    rw [show ('A' :: 'r' :: 't' :: 'i' :: 'c' :: 'l' :: 'e' :: ' ' :: (d ++ o) : Str) =
      ('A' :: 'r' :: 't' :: 'i' :: 'c' :: 'l' :: 'e' :: ' ' :: []) ++ (d ++ o) from rfl,
      getLast?_append_right _ (d ++ o) ?hne] at hc
    case hne =>
      intro h0
      exact hd (List.append_eq_nil.1 h0).1
    rcases ho with rfl | ⟨c2, rfl, ha⟩
    · rw [List.append_nil] at hc
      exact isWsC_eq_false_of_isDigitC (getLast?_pred hdig hc)
    · rw [getLast?_append_single] at hc
      cases hc
      exact isWsC_eq_false_of_isAlphaC ha

theorem answerNorm_article (s : Store) (d o : Str) (hd : d ≠ [])
    (hdig : ∀ c ∈ d, isDigitC c = true)
    (ho : o = [] ∨ ∃ c, o = [c] ∧ isLowerC c = true) :
    answerNorm ('a' :: 'r' :: 't' :: 'i' :: 'c' :: 'l' :: 'e' :: ' ' :: (d ++ o)) s =
      lookupOut s ((d ++ o).map upperC) := by
  unfold answerNorm
  rw [searchKey_article d o hd hdig ho]

theorem answerNorm_bare (s : Store) (d o : Str) (hd : d ≠ [])
    (hdig : ∀ c ∈ d, isDigitC c = true)
    (ho : o = [] ∨ ∃ c, o = [c] ∧ isLowerC c = true) :
    answerNorm (d ++ o) s = lookupOut s ((d ++ o).map upperC) := by
  unfold answerNorm
  rw [searchKey_no_art d hdig o ho, if_pos (bareNum_digits d o hd hdig ho)]

theorem keyShapeB_inv {k : Str} (h : keyShapeB k = true) :
    ∃ d o, k = d ++ o ∧ d ≠ [] ∧ (∀ c ∈ d, isDigitC c = true) ∧
      (o = [] ∨ ∃ c, o = [c] ∧ isUpperC c = true) := by
  unfold keyShapeB at h
  rw [Bool.and_eq_true] at h
  obtain ⟨h1, h2⟩ := h
  refine ⟨k.takeWhile isDigitC, k.dropWhile isDigitC,
    (List.takeWhile_append_dropWhile _ _).symm, of_decide_eq_true h1,
    fun c hc => mem_takeWhile_pred hc, ?_⟩
  split at h2
  next heq => exact Or.inl heq
  next c heq => exact Or.inr ⟨c, heq, h2⟩
  next => cases h2

theorem lower_tail_of_alpha {o : Str}
    (ho : o = [] ∨ ∃ c, o = [c] ∧ isAlphaC c = true) :
    o.map lowerC = [] ∨ ∃ c, o.map lowerC = [c] ∧ isLowerC c = true := by
  rcases ho with rfl | ⟨c, rfl, ha⟩
  · exact Or.inl rfl
  · exact Or.inr ⟨lowerC c, rfl, isLowerC_lowerC_of_isAlphaC ha⟩

/-- C1: for any store binding a well-shaped article id to a body, the query
"Article " followed by that id returns exactly the header line, a blank
line, and the stored body verbatim. -/
theorem claim1_article_query_header_body (s : Store) (id body : Str)
    (hk : keyShapeB id = true) (hb : lookupA s id = some body) :
    get_answer ("Article ".toList ++ id) s =
      "Article ".toList ++ id ++ '\n' :: '\n' :: body := by
  obtain ⟨d, o, rfl, hd, hdig, ho⟩ := keyShapeB_inv hk
  have hoA : o = [] ∨ ∃ c, o = [c] ∧ isAlphaC c = true := by
    rcases ho with rfl | ⟨c, rfl, hu⟩
    exacts [Or.inl rfl, Or.inr ⟨c, rfl, isAlphaC_of_isUpperC hu⟩]
  unfold get_answer
  rw [show ("Article ".toList ++ (d ++ o) : Str) =
      'A' :: 'r' :: 't' :: 'i' :: 'c' :: 'l' :: 'e' :: ' ' :: (d ++ o) from rfl,
    pstrip_article_query d o hd hdig hoA,
    show (List.map lowerC
        ('A' :: 'r' :: 't' :: 'i' :: 'c' :: 'l' :: 'e' :: ' ' :: (d ++ o)) : Str) =
      'a' :: 'r' :: 't' :: 'i' :: 'c' :: 'l' :: 'e' :: ' ' :: List.map lowerC (d ++ o)
      from rfl,
    List.map_append, map_lowerC_digits hdig,
    answerNorm_article s d (o.map lowerC) hd hdig (lower_tail_of_alpha hoA)]
  have hkey : (d ++ o.map lowerC).map upperC = d ++ o := by
    rw [List.map_append, map_upperC_digits hdig]
    congr 1
    rcases ho with rfl | ⟨c, rfl, hu⟩
    · rfl
    · show [upperC (lowerC c)] = [c]
      rw [upperC_lowerC_of_isUpperC hu]
  rw [hkey]
  unfold lookupOut
  rw [hb]
  rfl

/-- C1 witness: looking up article 21A in a one-entry store returns the
header, blank line and body. -/
theorem claim1_witness :
    get_answer ("Article ".toList ++ "21A".toList)
      [("21A".toList, "Right to education".toList)] =
      "Article ".toList ++ "21A".toList ++ '\n' :: '\n' :: "Right to education".toList :=
  claim1_article_query_header_body _ "21A".toList "Right to education".toList
    (by decide) (by decide)

/-- C7: a bare numeric query (digits with an optional letter suffix) is
answered exactly like the corresponding "Article <id>" query, for every
store. -/
theorem claim7_bare_numeric_query (s : Store) (d o : Str) (hd : d ≠ [])
    (hdig : ∀ c ∈ d, isDigitC c = true)
    (ho : o = [] ∨ ∃ c, o = [c] ∧ isAlphaC c = true) :
    get_answer (d ++ o) s = get_answer ("Article ".toList ++ (d ++ o)) s := by
  unfold get_answer
  rw [pstrip_digits_id d o hd hdig ho, List.map_append, map_lowerC_digits hdig,
    show ("Article ".toList ++ (d ++ o) : Str) =
      'A' :: 'r' :: 't' :: 'i' :: 'c' :: 'l' :: 'e' :: ' ' :: (d ++ o) from rfl,
    pstrip_article_query d o hd hdig ho,
    show (List.map lowerC
        ('A' :: 'r' :: 't' :: 'i' :: 'c' :: 'l' :: 'e' :: ' ' :: (d ++ o)) : Str) =
      'a' :: 'r' :: 't' :: 'i' :: 'c' :: 'l' :: 'e' :: ' ' :: List.map lowerC (d ++ o)
      from rfl,
    List.map_append, map_lowerC_digits hdig,
    answerNorm_bare s d (o.map lowerC) hd hdig (lower_tail_of_alpha ho),
    answerNorm_article s d (o.map lowerC) hd hdig (lower_tail_of_alpha ho)]

/-- C7 witness: the bare query "21A" and "Article 21A" give the same answer
on a one-entry store. -/
theorem claim7_witness :
    get_answer "21A".toList [("21A".toList, "Right to education".toList)] =
      get_answer ("Article ".toList ++ "21A".toList)
        [("21A".toList, "Right to education".toList)] :=
  claim7_bare_numeric_query _ "21".toList ['A'] (by decide) (by decide)
    (Or.inr ⟨'A', rfl, by decide⟩)
